/-
Verification of the streambridge receiver fan-out engine.

Shallow embedding of the core operations of the repository:
  - the NDI facade's length derivation (src/crates/streambridge/src/ndi/mod.rs,
    ReceiveInstance::video_data),
  - the per-source worker loop's dispatch on capture results
    (src/crates/streambridge/src/receiver.rs, get_or_create worker closure),
  - the pixel converter and JPEG encode pipeline
    (src/crates/streambridge/src/encode.rs),
  - per-source stats (src/crates/streambridge/src/stats.rs),
  - the WebSocket subscriber adapter (src/crates/streambridge/src/server.rs).

Machine integers are modelled as Nat (byte values, sizes, counters; all the
arithmetic in question stays far below every relevant 2^w bound, noted at each
definition where it matters).  Byte buffers are modelled as total functions
Nat → Nat together with explicit bounds accounting.  Foreign calls (the NDI
runtime, the turbojpeg compressor, the network) are oracle parameters.
-/
import Mathlib

namespace StreamBridge

/-- Ascending iteration: `iterUp f n st` applies `f 0`, then `f 1`, …, then
`f (n-1)`, mirroring a Rust `for i in 0..n` loop over a mutable state. -/
def iterUp {α : Type} (f : Nat → α → α) : Nat → α → α
  | 0, st => st
  | n + 1, st => f n (iterUp f n st)

/-- Pointwise write into a buffer modelled as a total function:
`wr b i x` is the buffer `b` with index `i` overwritten by `x`. -/
def wr (b : Nat → Nat) (i x : Nat) : Nat → Nat :=
  fun k => if k = i then x else b k

/-- FourCC variants, from crates/ndi-sdk/src/types.rs (`FourCCVideoType`). -/
inductive FourCCVideoType where
  | UYVY | UYVA | I420 | NV12 | YV12 | BGRA | BGRX | RGBA | RGBX
  | Unknown (code : Nat)
deriving DecidableEq, Repr

/-- Frame types returned by `capture_video`, from crates/ndi-sdk/src/types.rs
(`FrameType`). -/
inductive FrameType where
  | none | video | audio | metadata | error | statusChange
  | unknown (code : Int)
deriving DecidableEq, Repr

def FrameType.isVideo : FrameType → Bool
  | .video => true
  | _ => false

/-! ## NDI facade: length derivation (ndi/mod.rs, `ReceiveInstance::video_data`) -/

/-- Stride repair performed by `video_data` when `line_stride_in_bytes` is 0,
from ndi/mod.rs lines 213-223. -/
def video_data_stride (fourcc : FourCCVideoType) (w stride : Nat) : Nat :=
  if stride = 0 then
    match fourcc with
    | .UYVY | .UYVA => w * 2
    | .BGRA | .BGRX | .RGBA | .RGBX => w * 4
    | _ => w * 2
  else stride

/-- Byte length of the borrowed slice derived by `video_data`,
from ndi/mod.rs lines 225-234 (`stride` is the raw `line_stride_in_bytes`,
repaired first). -/
def video_data_len (fourcc : FourCCVideoType) (w h stride : Nat) : Nat :=
  let s := video_data_stride fourcc w stride
  match fourcc with
  | .UYVY => s * h
  | .UYVA => s * h + w * h
  | .I420 | .YV12 | .NV12 => s * h * 3 / 2
  | .BGRA | .BGRX | .RGBA | .RGBX => s * h
  | .Unknown _ => s * h

/-- `video_data` itself: returns `none` when `p_data` is null, otherwise the
borrowed slice, of the derived length (the slice content is immaterial here,
only its length is modelled). -/
def video_data (dataNull : Bool) (fourcc : FourCCVideoType) (w h stride : Nat) :
    Option Nat :=
  if dataNull then Option.none else Option.some (video_data_len fourcc w h stride)

/-- The length-derivation rule restated from the specification's words
(§4.1 of spec.md: the repair table and the byte-length table), to be compared
with `video_data_len` as translated from ndi/mod.rs. -/
def video_data_len_spec (fourcc : FourCCVideoType) (w h stride : Nat) : Nat :=
  let s :=
    if stride = 0 then
      match fourcc with
      | .UYVY | .UYVA => w * 2
      | .BGRA | .BGRX | .RGBA | .RGBX => w * 4
      | _ => w * 2
    else stride
  match fourcc with
  | .UYVY => s * h
  | .UYVA => s * h + w * h
  | .I420 | .YV12 | .NV12 => s * h * 3 / 2
  | .BGRA | .BGRX | .RGBA | .RGBX => s * h
  | .Unknown _ => s * h

/-! ## Worker loop (receiver.rs, worker closure inside `get_or_create`) -/

/-- Stride repair done inline by the worker (receiver.rs lines 143-150):
take `line_stride_in_bytes` when positive, otherwise `w*2` for UYVY/UYVA and
`w*4` for every other FourCC.  `lineStride` is the raw i32 field. -/
def worker_stride (fourcc : FourCCVideoType) (w : Nat) (lineStride : Int) : Nat :=
  if 0 < lineStride then lineStride.toNat
  else
    match fourcc with
    | .UYVY | .UYVA => w * 2
    | _ => w * 4

/-- `min_frame_interval_ms` as computed at receiver.rs line 109. -/
def min_frame_interval_ms (maxFps : Nat) : Nat :=
  if 0 < maxFps then 1000 / maxFps else 0

/-- Errors returned by `encode_frame` (encode.rs): the two distinct error
format strings, kept apart structurally. `unsupportedFourCC` models
`Err(format!(..unsupported FourCC..))` at encode.rs line 147;
`compressError` models the `turbojpeg compress error` wrapping of a
compressor failure. -/
inductive EncodeError where
  | unsupportedFourCC (fourcc : FourCCVideoType)
  | compressError (msg : String)
deriving DecidableEq, Repr

/-- Observable side effects of one pass through the worker's `match frame_type`
dispatch (receiver.rs lines 128-186): counter increments, `free_video` calls,
encode attempts, broadcast publishes, whether `last_send` was reset, and
whether the loop breaks. -/
structure WorkerEffects where
  frames_in_inc : Nat
  dropped_inc : Nat
  free_video_calls : Nat
  encode_calls : Nat
  encode_count_inc : Nat
  frames_out_inc : Nat
  publishes : Nat
  last_send_updated : Bool
  breaks : Bool
deriving DecidableEq, Repr

def noEffects : WorkerEffects :=
  { frames_in_inc := 0, dropped_inc := 0, free_video_calls := 0,
    encode_calls := 0, encode_count_inc := 0, frames_out_inc := 0,
    publishes := 0, last_send_updated := false, breaks := false }

/-- The `FrameType::Video` arm (receiver.rs lines 129-175).
`elapsed` is `last_send.elapsed().as_millis()`; `dataNull` is whether
`recv.video_data` returned `None` (null `p_data`); `encodeRes` is the outcome
of the `encode::encode_frame` call. -/
def videoDispatch (minIntervalMs elapsed : Nat) (dataNull : Bool)
    (encodeRes : Except EncodeError (List Nat)) : WorkerEffects :=
  if elapsed < minIntervalMs then
    -- rate-cap drop: dropped++, free_video, continue
    { noEffects with frames_in_inc := 1, dropped_inc := 1, free_video_calls := 1 }
  else
    let inner : WorkerEffects :=
      if dataNull then noEffects
      else
        match encodeRes with
        | .ok _ =>
          { noEffects with
            encode_calls := 1
            encode_count_inc := 1
            frames_out_inc := 1
            publishes := 1
            last_send_updated := true }
        | .error _ =>
          { noEffects with encode_calls := 1, dropped_inc := 1 }
    -- frames_in++ happened first; free_video runs after the if-let either way
    { inner with frames_in_inc := 1, free_video_calls := 1 }

/-- One full dispatch on the capture result (receiver.rs lines 128-186). -/
def captureDispatch (minIntervalMs elapsed : Nat) (ft : FrameType)
    (dataNull : Bool) (encodeRes : Except EncodeError (List Nat)) : WorkerEffects :=
  match ft with
  | .video => videoDispatch minIntervalMs elapsed dataNull encodeRes
  | .error => { noEffects with breaks := true }
  | .none => noEffects
  | _ => noEffects

/-- One worker cycle's inputs: elapsed ms, capture result, data-null flag,
encode outcome. -/
abbrev WorkerCycle := Nat × FrameType × Bool × Except EncodeError (List Nat)

/-- Total number of `free_video` calls over a sequence of worker cycles. -/
def traceFrees (minIntervalMs : Nat) : List WorkerCycle → Nat
  | [] => 0
  | s :: rest =>
    (captureDispatch minIntervalMs s.1 s.2.1 s.2.2.1 s.2.2.2).free_video_calls
      + traceFrees minIntervalMs rest

/-- Number of `Video` capture results in a sequence of worker cycles. -/
def traceVideos : List WorkerCycle → Nat
  | [] => 0
  | s :: rest => (if s.2.1.isVideo then 1 else 0) + traceVideos rest

/-! ## Encoder scratch buffers (encode.rs, `EncodeBuffers`) -/

/-- Scratch-buffer state of `EncodeBuffers` (encode.rs lines 4-14).  Only the
lengths of the four vectors are tracked (their content is unspecified after a
resize, per the spec); `last_w`, `last_h`, `last_quality` as in the source. -/
structure EncodeBuffers where
  y_plane : Nat
  u_plane : Nat
  v_plane : Nat
  yuv_buf : Nat
  last_w : Nat
  last_h : Nat
  last_quality : Int
deriving DecidableEq, Repr

/-- `EncodeBuffers::new()` (encode.rs lines 17-28): empty vectors,
`last_w = last_h = 0`, `last_quality = -1`. -/
def EncodeBuffers.new : EncodeBuffers :=
  { y_plane := 0, u_plane := 0, v_plane := 0, yuv_buf := 0,
    last_w := 0, last_h := 0, last_quality := -1 }

/-- `ensure_capacity` (encode.rs lines 31-40).  The Bool records whether the
resize branch was taken. -/
def ensure_capacity (b : EncodeBuffers) (w h : Nat) : EncodeBuffers × Bool :=
  if w ≠ b.last_w ∨ h ≠ b.last_h then
    ({ b with
       y_plane := w * h
       u_plane := (w / 2) * (h / 2)
       v_plane := (w / 2) * (h / 2)
       yuv_buf := w * h + (w / 2) * (h / 2) * 2
       last_w := w
       last_h := h }, true)
  else (b, false)

/-- `set_quality` (encode.rs lines 42-47): reconfigure only on change. -/
def set_quality (b : EncodeBuffers) (quality : Int) : EncodeBuffers :=
  if quality ≠ b.last_quality then { b with last_quality := quality } else b

/-! ## UYVY → planar 4:2:0 conversion (encode.rs, `uyvy_to_yuv420_planar`) -/

/-- The three output planes, each a byte buffer modelled as a total function. -/
structure YUVPlanes where
  y : Nat → Nat
  u : Nat → Nat
  v : Nat → Nat

/-- The body of the inner loop of `uyvy_to_yuv420_planar`
(encode.rs lines 63-77) for row `row` and iteration `j` of
`(0..w).step_by(2)`, i.e. `col = 2*j`.  `uyvy` is the input slice;
`src` is the row subslice `&uyvy[row*stride..]`.  The chroma average
`(prev + new) / 2` is computed in u16 in the source and never exceeds 255
for byte-valued inputs, so plain Nat division is exact. -/
def uyvyStep (uyvy : Nat → Nat) (stride w row : Nat) (j : Nat)
    (st : YUVPlanes) : YUVPlanes :=
  let col := 2 * j
  let i := col * 2
  let src : Nat → Nat := fun k => uyvy (row * stride + k)
  let yOff := row * w
  let y2 := wr (wr st.y (yOff + col) (src (i + 1))) (yOff + col + 1) (src (i + 3))
  let uvOff := (row / 2) * (w / 2) + col / 2
  if row % 2 = 0 then
    { y := y2, u := wr st.u uvOff (src i), v := wr st.v uvOff (src (i + 2)) }
  else
    { y := y2
      u := wr st.u uvOff ((st.u uvOff + src i) / 2)
      v := wr st.v uvOff ((st.v uvOff + src (i + 2)) / 2) }

/-- One full row of `uyvy_to_yuv420_planar` (encode.rs lines 60-78): the
inner `for col in (0..w).step_by(2)` loop, which runs `(w+1)/2` iterations
with `col = 2*j`. -/
def uyvyRow (uyvy : Nat → Nat) (stride w row : Nat) (st : YUVPlanes) :
    YUVPlanes :=
  iterUp (uyvyStep uyvy stride w row) ((w + 1) / 2) st

/-- `uyvy_to_yuv420_planar` (encode.rs lines 51-79): for each `row in 0..h`,
perform the inner column loop.  `st` holds the y/u/v output buffers. -/
def uyvy_to_yuv420_planar (uyvy : Nat → Nat) (stride w h : Nat)
    (st : YUVPlanes) : YUVPlanes :=
  iterUp (uyvyRow uyvy stride w) h st

/-- The synthesized constant UYVY frame of the spec's round-trip property:
with an even row stride every odd byte offset is luma and every even one is
chroma, so all luma bytes equal `k` and all chroma bytes equal 128. -/
def constUYVY (k : Nat) : Nat → Nat :=
  fun p => if p % 2 = 1 then k else 128

/-- Bounds accounting for every slice index `uyvy_to_yuv420_planar` uses
(encode.rs lines 60-77): the row subslice `&uyvy[row*stride..]` needs
`row*stride ≤ srclen`; reads `src[i..i+3]` with `i = 4*j` need
`row*stride + 4*j + 3 < srclen`; writes `y[yOff+col]`, `y[yOff+col+1]` need
`row*w + 2*j + 1 < ylen`; the chroma read/write at
`uv_off = (row/2)*(w/2) + j` needs it below `ulen` and `vlen`. -/
def uyvyIndexesInBounds (w h stride srclen ylen ulen vlen : Nat) : Prop :=
  ∀ row, row < h →
    row * stride ≤ srclen ∧
    ∀ j, j < (w + 1) / 2 →
      row * w + 2 * j + 1 < ylen ∧
      row * stride + 4 * j + 3 < srclen ∧
      (row / 2) * (w / 2) + j < ulen ∧
      (row / 2) * (w / 2) + j < vlen

instance (w h stride srclen ylen ulen vlen : Nat) :
    Decidable (uyvyIndexesInBounds w h stride srclen ylen ulen vlen) := by
  unfold uyvyIndexesInBounds
  infer_instance

/-! ## `encode_frame` (encode.rs lines 82-149) -/

/-- Whether the FourCC reaches one of the three supported compressor arms of
the `match` in `encode_frame`. -/
def supportedFourCC : FourCCVideoType → Bool
  | .UYVY | .BGRA | .BGRX | .RGBA | .RGBX => true
  | _ => false

/-- Wrap a compressor failure as the `turbojpeg compress error` arm. -/
def wrapCompress (r : Except String (List Nat)) : Except EncodeError (List Nat) :=
  match r with
  | .ok v => .ok v
  | .error e => .error (.compressError e)

/-- `encode_frame` (encode.rs lines 82-149).  The turbojpeg compressor is
foreign code, passed as oracles: `compressYuv` for `compress_yuv_to_vec`
(UYVY arm), `compressBgra` / `compressRgba` for `compress_to_vec` on the
BGRA- and RGBA-format images.  Returns the updated scratch state and the
result; the UYVY arm runs `ensure_capacity` and the planar conversion into
the scratch planes (whose lengths `ensure_capacity` fixed) before compressing. -/
def encode_frame (w h stride : Nat) (fourcc : FourCCVideoType) (quality : Int)
    (b : EncodeBuffers)
    (compressYuv compressBgra compressRgba : Except String (List Nat)) :
    EncodeBuffers × Except EncodeError (List Nat) :=
  let b := set_quality b quality
  match fourcc with
  | .UYVY =>
    let b := (ensure_capacity b w h).1
    (b, wrapCompress compressYuv)
  | .BGRA | .BGRX => (b, wrapCompress compressBgra)
  | .RGBA | .RGBX => (b, wrapCompress compressRgba)
  | other => (b, .error (.unsupportedFourCC other))

/-- Whether an `encode_frame` result is the "unsupported FourCC" error. -/
def isUnsupportedErr : Except EncodeError (List Nat) → Bool
  | .error (.unsupportedFourCC _) => true
  | _ => false

/-! ## Per-source stats (stats.rs, `SourceStats`) -/

/-- The seven counters of `SourceStats` (stats.rs lines 5-13).  The Rust
counters are relaxed `AtomicU64`s read and reset by a single snapshot call;
here a plain record of their values. -/
structure SourceStats where
  frames_in : Nat
  frames_out : Nat
  encode_time_us : Nat
  encode_count : Nat
  bytes_out : Nat
  dropped : Nat
  clients : Nat
deriving DecidableEq, Repr

/-- `StatsSnapshot` (stats.rs lines 58-65).  The derived rates are `f64` in
the source; they are modelled exactly over ℚ (the formulas involve only
division by the interval, 1000 and 1024). -/
structure StatsSnapshot where
  clients : Nat
  fps_in : ℚ
  fps_out : ℚ
  avg_encode_ms : ℚ
  kb_per_sec : ℚ
  dropped : Nat

/-- `snapshot_and_reset` (stats.rs lines 29-55): swap every counter to zero
except `clients` (load only), then derive the rates from the pre-swap values. -/
def snapshot_and_reset (s : SourceStats) (interval_secs : ℚ) :
    SourceStats × StatsSnapshot :=
  let fi := s.frames_in
  let fo := s.frames_out
  let et := s.encode_time_us
  let ec := s.encode_count
  let bo := s.bytes_out
  let dr := s.dropped
  let cl := s.clients
  ({ frames_in := 0, frames_out := 0, encode_time_us := 0, encode_count := 0,
     bytes_out := 0, dropped := 0, clients := cl },
   { clients := cl
     fps_in := (fi : ℚ) / interval_secs
     fps_out := (fo : ℚ) / interval_secs
     avg_encode_ms := if 0 < ec then ((et : ℚ) / (ec : ℚ)) / 1000 else 0
     kb_per_sec := ((bo : ℚ) / 1024) / interval_secs
     dropped := dr })

/-! ## Subscriber adapter (server.rs, `handle_ws`) -/

/-- One received event on the broadcast subscription (server.rs lines 92-110):
a frame (with the outcome of the subsequent WebSocket send), `Lagged(n)`, or
`Closed`. -/
inductive RecvEvent where
  | frame (sendErr : Bool)
  | lagged (n : Nat)
  | closed
deriving DecidableEq, Repr

/-- Outcome of the receive loop: `running` if the (finite) event list was
exhausted while still looping, `exited` with the close frames sent from
inside the loop otherwise. -/
inductive LoopOutcome where
  | running
  | exited (closes : List (Nat × String))
deriving DecidableEq, Repr

def LoopOutcome.isExited : LoopOutcome → Bool
  | .exited _ => true
  | .running => false

/-- The subscriber receive loop (server.rs lines 91-111): a frame is sent as
a binary message, breaking on send error; `Lagged(n)` logs and continues;
`Closed` sends close 4410 "source lost" and breaks. -/
def wsLoop : List RecvEvent → LoopOutcome
  | [] => .running
  | .frame sendErr :: rest => if sendErr then .exited [] else wsLoop rest
  | .lagged _ :: rest => wsLoop rest
  | .closed :: _ => .exited [(4410, "source lost")]

/-- Observable actions of one `handle_ws` run. `unsubscribe_calls` counts
`shared.unsubscribe()` (which decrements `clients`); `maybe_remove_calls`
counts `manager.maybe_remove`. -/
structure WsRun where
  closes : List (Nat × String)
  subscribed : Bool
  unsubscribe_calls : Nat
  maybe_remove_calls : Nat
deriving DecidableEq, Repr

/-- `handle_ws` (server.rs lines 62-116).  `foundSource` is whether the name
was in the discovery snapshot; `getOrCreateOk` the outcome of
`get_or_create`; `events` the broadcast receive results.  If the event list
runs dry the session is still inside the loop (`wsLoop` returned `running`),
so the epilogue has not run. -/
def handle_ws (foundSource getOrCreateOk : Bool) (events : List RecvEvent) :
    WsRun :=
  if foundSource = false then
    { closes := [(4404, "source not found")], subscribed := false,
      unsubscribe_calls := 0, maybe_remove_calls := 0 }
  else if getOrCreateOk = false then
    { closes := [(4404, "source not found")], subscribed := false,
      unsubscribe_calls := 0, maybe_remove_calls := 0 }
  else
    match wsLoop events with
    | .running =>
      { closes := [], subscribed := true,
        unsubscribe_calls := 0, maybe_remove_calls := 0 }
    | .exited cs =>
      { closes := cs, subscribed := true,
        unsubscribe_calls := 1, maybe_remove_calls := 1 }

/-- Size/bookkeeping invariant of the scratch state: every vector length is
the one dictated by `(last_w, last_h)`. -/
def sizesOK (b : EncodeBuffers) : Prop :=
  b.y_plane = b.last_w * b.last_h ∧
  b.u_plane = (b.last_w / 2) * (b.last_h / 2) ∧
  b.v_plane = (b.last_w / 2) * (b.last_h / 2) ∧
  b.yuv_buf = b.last_w * b.last_h + (b.last_w / 2) * (b.last_h / 2) * 2

/-- Final scratch state after a sequence of `ensure_capacity` calls starting
from `EncodeBuffers::new()`. -/
def runEnsures (calls : List (Nat × Nat)) : EncodeBuffers :=
  calls.foldl (fun b p => (ensure_capacity b p.1 p.2).1) EncodeBuffers.new

/-! ## Helper lemmas -/

theorem videoDispatch_free_one (m e : Nat) (d : Bool)
    (r : Except EncodeError (List Nat)) :
    (videoDispatch m e d r).free_video_calls = 1 := by
  unfold videoDispatch
  split
  · rfl
  · rfl

theorem isUnsupportedErr_wrapCompress (r : Except String (List Nat)) :
    isUnsupportedErr (wrapCompress r) = false := by
  cases r <;> rfl

theorem ensure_capacity_last (b : EncodeBuffers) (w h : Nat) :
    ((ensure_capacity b w h).1).last_w = w ∧
    ((ensure_capacity b w h).1).last_h = h := by
  unfold ensure_capacity
  split
  · exact ⟨rfl, rfl⟩
  · rename_i hcond
    push_neg at hcond
    exact ⟨hcond.1.symm, hcond.2.symm⟩

theorem ensure_capacity_sizesOK (b : EncodeBuffers) (w h : Nat)
    (hb : sizesOK b) : sizesOK ((ensure_capacity b w h).1) := by
  unfold ensure_capacity
  split
  · exact ⟨rfl, rfl, rfl, rfl⟩
  · exact hb

theorem foldl_ensure_sizesOK (calls : List (Nat × Nat)) :
    ∀ b : EncodeBuffers, sizesOK b →
      sizesOK (calls.foldl (fun b p => (ensure_capacity b p.1 p.2).1) b) := by
  induction calls with
  | nil => intro b hb; exact hb
  | cons p rest ih =>
    intro b hb
    exact ih _ (ensure_capacity_sizesOK b p.1 p.2 hb)

theorem runEnsures_sizesOK (calls : List (Nat × Nat)) :
    sizesOK (runEnsures calls) :=
  foldl_ensure_sizesOK calls EncodeBuffers.new ⟨rfl, rfl, rfl, rfl⟩

/-! ### Characterization of the UYVY → 4:2:0 conversion -/

theorem uyvyStep_y (uyvy : Nat → Nat) (stride w row j : Nat) (st : YUVPlanes) :
    (uyvyStep uyvy stride w row j st).y
      = wr (wr st.y (row * w + 2 * j) (uyvy (row * stride + (2 * j * 2 + 1))))
          (row * w + 2 * j + 1) (uyvy (row * stride + (2 * j * 2 + 3))) := by
  unfold uyvyStep
  split <;> rfl

theorem uyvyStep_u (uyvy : Nat → Nat) (stride w row j : Nat) (st : YUVPlanes) :
    (uyvyStep uyvy stride w row j st).u
      = (if row % 2 = 0 then
          wr st.u ((row / 2) * (w / 2) + j) (uyvy (row * stride + 2 * j * 2))
        else
          wr st.u ((row / 2) * (w / 2) + j)
            ((st.u ((row / 2) * (w / 2) + j)
              + uyvy (row * stride + 2 * j * 2)) / 2)) := by
  have hj : 2 * j / 2 = j := by omega
  unfold uyvyStep
  split <;> simp [hj]

theorem uyvyStep_v (uyvy : Nat → Nat) (stride w row j : Nat) (st : YUVPlanes) :
    (uyvyStep uyvy stride w row j st).v
      = (if row % 2 = 0 then
          wr st.v ((row / 2) * (w / 2) + j)
            (uyvy (row * stride + (2 * j * 2 + 2)))
        else
          wr st.v ((row / 2) * (w / 2) + j)
            ((st.v ((row / 2) * (w / 2) + j)
              + uyvy (row * stride + (2 * j * 2 + 2))) / 2)) := by
  have hj : 2 * j / 2 = j := by omega
  unfold uyvyStep
  split <;> simp [hj]

theorem innerY_miss (uyvy : Nat → Nat) (stride w row : Nat) :
    ∀ (m : Nat) (st : YUVPlanes) (idx : Nat),
      idx < row * w ∨ row * w + 2 * m ≤ idx →
      (iterUp (uyvyStep uyvy stride w row) m st).y idx = st.y idx := by
  intro m
  induction m with
  | zero => intro st idx _; rfl
  | succ m ih =>
    intro st idx hidx
    simp only [iterUp]
    rw [uyvyStep_y]
    simp only [wr]
    rw [if_neg (by omega : ¬ idx = row * w + 2 * m + 1),
        if_neg (by omega : ¬ idx = row * w + 2 * m)]
    exact ih st idx (by omega)

theorem innerY_hit (uyvy : Nat → Nat) (stride w row : Nat) :
    ∀ (m : Nat) (st : YUVPlanes) (c : Nat), c < 2 * m →
      (iterUp (uyvyStep uyvy stride w row) m st).y (row * w + c)
        = uyvy (row * stride + (2 * c + 1)) := by
  intro m
  induction m with
  | zero => intro st c hc; exact absurd hc (by omega)
  | succ m ih =>
    intro st c hc
    simp only [iterUp]
    rw [uyvyStep_y]
    simp only [wr]
    by_cases h1 : c = 2 * m + 1
    · rw [if_pos (by omega : row * w + c = row * w + 2 * m + 1)]
      congr 1
      omega
    · by_cases h2 : c = 2 * m
      · rw [if_neg (by omega : ¬ row * w + c = row * w + 2 * m + 1),
            if_pos (by omega : row * w + c = row * w + 2 * m)]
        congr 1
        omega
      · rw [if_neg (by omega : ¬ row * w + c = row * w + 2 * m + 1),
            if_neg (by omega : ¬ row * w + c = row * w + 2 * m)]
        exact ih st c (by omega)

theorem innerU_miss (uyvy : Nat → Nat) (stride w row : Nat) :
    ∀ (m : Nat) (st : YUVPlanes) (q : Nat),
      q < row / 2 * (w / 2) ∨ row / 2 * (w / 2) + m ≤ q →
      (iterUp (uyvyStep uyvy stride w row) m st).u q = st.u q := by
  intro m
  induction m with
  | zero => intro st q _; rfl
  | succ m ih =>
    intro st q hq
    simp only [iterUp]
    rw [uyvyStep_u]
    have hne : ¬ q = row / 2 * (w / 2) + m := by omega
    by_cases hrow : row % 2 = 0
    · rw [if_pos hrow]
      simp only [wr]
      rw [if_neg hne]
      exact ih st q (by omega)
    · rw [if_neg hrow]
      simp only [wr]
      rw [if_neg hne]
      exact ih st q (by omega)

theorem innerV_miss (uyvy : Nat → Nat) (stride w row : Nat) :
    ∀ (m : Nat) (st : YUVPlanes) (q : Nat),
      q < row / 2 * (w / 2) ∨ row / 2 * (w / 2) + m ≤ q →
      (iterUp (uyvyStep uyvy stride w row) m st).v q = st.v q := by
  intro m
  induction m with
  | zero => intro st q _; rfl
  | succ m ih =>
    intro st q hq
    simp only [iterUp]
    rw [uyvyStep_v]
    have hne : ¬ q = row / 2 * (w / 2) + m := by omega
    by_cases hrow : row % 2 = 0
    · rw [if_pos hrow]
      simp only [wr]
      rw [if_neg hne]
      exact ih st q (by omega)
    · rw [if_neg hrow]
      simp only [wr]
      rw [if_neg hne]
      exact ih st q (by omega)

theorem innerU_hit (uyvy : Nat → Nat) (stride w row : Nat) :
    ∀ (m : Nat) (st : YUVPlanes) (j : Nat), j < m →
      (iterUp (uyvyStep uyvy stride w row) m st).u (row / 2 * (w / 2) + j)
        = (if row % 2 = 0 then uyvy (row * stride + 2 * j * 2)
           else (st.u (row / 2 * (w / 2) + j)
                  + uyvy (row * stride + 2 * j * 2)) / 2) := by
  intro m
  induction m with
  | zero => intro st j hj; exact absurd hj (by omega)
  | succ m ih =>
    intro st j hj
    simp only [iterUp]
    rw [uyvyStep_u]
    by_cases hjm : j = m
    · subst hjm
      by_cases hrow : row % 2 = 0
      · rw [if_pos hrow, if_pos hrow]
        simp only [wr, if_true]
      · rw [if_neg hrow, if_neg hrow]
        simp only [wr, if_true]
        rw [innerU_miss uyvy stride w row j st (row / 2 * (w / 2) + j)
              (Or.inr (Nat.le_refl _))]
    · have hne : ¬ row / 2 * (w / 2) + j = row / 2 * (w / 2) + m := by omega
      by_cases hrow : row % 2 = 0
      · rw [if_pos hrow]
        simp only [wr]
        rw [if_neg hne]
        rw [ih st j (by omega), if_pos hrow]
      · rw [if_neg hrow]
        simp only [wr]
        rw [if_neg hne]
        rw [ih st j (by omega), if_neg hrow]

theorem innerV_hit (uyvy : Nat → Nat) (stride w row : Nat) :
    ∀ (m : Nat) (st : YUVPlanes) (j : Nat), j < m →
      (iterUp (uyvyStep uyvy stride w row) m st).v (row / 2 * (w / 2) + j)
        = (if row % 2 = 0 then uyvy (row * stride + (2 * j * 2 + 2))
           else (st.v (row / 2 * (w / 2) + j)
                  + uyvy (row * stride + (2 * j * 2 + 2))) / 2) := by
  intro m
  induction m with
  | zero => intro st j hj; exact absurd hj (by omega)
  | succ m ih =>
    intro st j hj
    simp only [iterUp]
    rw [uyvyStep_v]
    by_cases hjm : j = m
    · subst hjm
      by_cases hrow : row % 2 = 0
      · rw [if_pos hrow, if_pos hrow]
        simp only [wr, if_true]
      · rw [if_neg hrow, if_neg hrow]
        simp only [wr, if_true]
        rw [innerV_miss uyvy stride w row j st (row / 2 * (w / 2) + j)
              (Or.inr (Nat.le_refl _))]
    · have hne : ¬ row / 2 * (w / 2) + j = row / 2 * (w / 2) + m := by omega
      by_cases hrow : row % 2 = 0
      · rw [if_pos hrow]
        simp only [wr]
        rw [if_neg hne]
        rw [ih st j (by omega), if_pos hrow]
      · rw [if_neg hrow]
        simp only [wr]
        rw [if_neg hne]
        rw [ih st j (by omega), if_neg hrow]

theorem uyvyRow_even (uyvy : Nat → Nat) (stride w2 row : Nat) (st : YUVPlanes) :
    uyvyRow uyvy stride (2 * w2) row st
      = iterUp (uyvyStep uyvy stride (2 * w2) row) w2 st := by
  unfold uyvyRow
  congr 1
  omega

theorem outerY (uyvy : Nat → Nat) (stride w2 : Nat) :
    ∀ (h : Nat) (st : YUVPlanes) (r c : Nat), r < h → c < 2 * w2 →
      (iterUp (uyvyRow uyvy stride (2 * w2)) h st).y (r * (2 * w2) + c)
        = uyvy (r * stride + (2 * c + 1)) := by
  intro h
  induction h with
  | zero => intro st r c hr _; exact absurd hr (by omega)
  | succ h ih =>
    intro st r c hr hc
    simp only [iterUp]
    rw [uyvyRow_even]
    by_cases hrh : r = h
    · subst hrh
      exact innerY_hit uyvy stride (2 * w2) r w2 _ c (by omega)
    · have h1 : (r + 1) * (2 * w2) ≤ h * (2 * w2) :=
        Nat.mul_le_mul_right _ (by omega)
      have h2 : (r + 1) * (2 * w2) = r * (2 * w2) + 2 * w2 :=
        Nat.succ_mul r (2 * w2)
      rw [innerY_miss uyvy stride (2 * w2) h w2 _ (r * (2 * w2) + c)
            (Or.inl (by omega))]
      exact ih st r c (by omega) hc

theorem outerU (uyvy : Nat → Nat) (stride w2 : Nat) :
    ∀ (h : Nat) (st : YUVPlanes) (ur j : Nat), j < w2 →
      (iterUp (uyvyRow uyvy stride (2 * w2)) h st).u (ur * w2 + j)
        = (if 2 * ur + 1 < h then
            (uyvy (2 * ur * stride + 2 * j * 2)
              + uyvy ((2 * ur + 1) * stride + 2 * j * 2)) / 2
          else if 2 * ur < h then uyvy (2 * ur * stride + 2 * j * 2)
          else st.u (ur * w2 + j)) := by
  intro h
  induction h with
  | zero =>
    intro st ur j hj
    rw [if_neg (by omega : ¬ 2 * ur + 1 < 0), if_neg (by omega : ¬ 2 * ur < 0)]
    rfl
  | succ h ih =>
    intro st ur j hj
    simp only [iterUp]
    rw [uyvyRow_even]
    have hw2 : 2 * w2 / 2 = w2 := by omega
    by_cases hur : ur = h / 2
    · subst hur
      have hhit := innerU_hit uyvy stride (2 * w2) h w2
        (iterUp (uyvyRow uyvy stride (2 * w2)) h st) j hj
      rw [hw2] at hhit
      rw [hhit]
      by_cases hpar : h % 2 = 0
      · have hh : 2 * (h / 2) = h := by omega
        rw [if_pos hpar,
            if_neg (by omega : ¬ 2 * (h / 2) + 1 < h + 1),
            if_pos (by omega : 2 * (h / 2) < h + 1)]
        congr 1
        rw [hh]
      · have hh : 2 * (h / 2) + 1 = h := by omega
        rw [if_neg hpar, ih st (h / 2) j hj,
            if_neg (by omega : ¬ 2 * (h / 2) + 1 < h),
            if_pos (by omega : 2 * (h / 2) < h),
            if_pos (by omega : 2 * (h / 2) + 1 < h + 1)]
        rw [hh]
    · have hmiss : (iterUp (uyvyStep uyvy stride (2 * w2) h) w2
          (iterUp (uyvyRow uyvy stride (2 * w2)) h st)).u (ur * w2 + j)
          = (iterUp (uyvyRow uyvy stride (2 * w2)) h st).u (ur * w2 + j) := by
        rcases Nat.lt_or_ge ur (h / 2) with hlt | hge
        · have ha : (ur + 1) * w2 ≤ h / 2 * w2 :=
            Nat.mul_le_mul_right _ (by omega)
          have hb : (ur + 1) * w2 = ur * w2 + w2 := Nat.succ_mul ur w2
          have := innerU_miss uyvy stride (2 * w2) h w2
            (iterUp (uyvyRow uyvy stride (2 * w2)) h st) (ur * w2 + j)
          rw [hw2] at this
          exact this (Or.inl (by omega))
        · have ha : (h / 2 + 1) * w2 ≤ ur * w2 :=
            Nat.mul_le_mul_right _ (by omega)
          have hb : (h / 2 + 1) * w2 = h / 2 * w2 + w2 := Nat.succ_mul (h / 2) w2
          have := innerU_miss uyvy stride (2 * w2) h w2
            (iterUp (uyvyRow uyvy stride (2 * w2)) h st) (ur * w2 + j)
          rw [hw2] at this
          exact this (Or.inr (by omega))
      rw [hmiss, ih st ur j hj]
      by_cases hc1 : 2 * ur + 1 < h
      · rw [if_pos hc1, if_pos (by omega : 2 * ur + 1 < h + 1)]
      · by_cases hc2 : 2 * ur < h
        · exact absurd hc2 (by omega)
        · rw [if_neg hc1, if_neg hc2,
              if_neg (by omega : ¬ 2 * ur + 1 < h + 1),
              if_neg (by omega : ¬ 2 * ur < h + 1)]

theorem outerV (uyvy : Nat → Nat) (stride w2 : Nat) :
    ∀ (h : Nat) (st : YUVPlanes) (ur j : Nat), j < w2 →
      (iterUp (uyvyRow uyvy stride (2 * w2)) h st).v (ur * w2 + j)
        = (if 2 * ur + 1 < h then
            (uyvy (2 * ur * stride + (2 * j * 2 + 2))
              + uyvy ((2 * ur + 1) * stride + (2 * j * 2 + 2))) / 2
          else if 2 * ur < h then uyvy (2 * ur * stride + (2 * j * 2 + 2))
          else st.v (ur * w2 + j)) := by
  intro h
  induction h with
  | zero =>
    intro st ur j hj
    rw [if_neg (by omega : ¬ 2 * ur + 1 < 0), if_neg (by omega : ¬ 2 * ur < 0)]
    rfl
  | succ h ih =>
    intro st ur j hj
    simp only [iterUp]
    rw [uyvyRow_even]
    have hw2 : 2 * w2 / 2 = w2 := by omega
    by_cases hur : ur = h / 2
    · subst hur
      have hhit := innerV_hit uyvy stride (2 * w2) h w2
        (iterUp (uyvyRow uyvy stride (2 * w2)) h st) j hj
      rw [hw2] at hhit
      rw [hhit]
      by_cases hpar : h % 2 = 0
      · have hh : 2 * (h / 2) = h := by omega
        rw [if_pos hpar,
            if_neg (by omega : ¬ 2 * (h / 2) + 1 < h + 1),
            if_pos (by omega : 2 * (h / 2) < h + 1)]
        congr 1
        rw [hh]
      · have hh : 2 * (h / 2) + 1 = h := by omega
        rw [if_neg hpar, ih st (h / 2) j hj,
            if_neg (by omega : ¬ 2 * (h / 2) + 1 < h),
            if_pos (by omega : 2 * (h / 2) < h),
            if_pos (by omega : 2 * (h / 2) + 1 < h + 1)]
        rw [hh]
    · have hmiss : (iterUp (uyvyStep uyvy stride (2 * w2) h) w2
          (iterUp (uyvyRow uyvy stride (2 * w2)) h st)).v (ur * w2 + j)
          = (iterUp (uyvyRow uyvy stride (2 * w2)) h st).v (ur * w2 + j) := by
        rcases Nat.lt_or_ge ur (h / 2) with hlt | hge
        · have ha : (ur + 1) * w2 ≤ h / 2 * w2 :=
            Nat.mul_le_mul_right _ (by omega)
          have hb : (ur + 1) * w2 = ur * w2 + w2 := Nat.succ_mul ur w2
          have := innerV_miss uyvy stride (2 * w2) h w2
            (iterUp (uyvyRow uyvy stride (2 * w2)) h st) (ur * w2 + j)
          rw [hw2] at this
          exact this (Or.inl (by omega))
        · have ha : (h / 2 + 1) * w2 ≤ ur * w2 :=
            Nat.mul_le_mul_right _ (by omega)
          have hb : (h / 2 + 1) * w2 = h / 2 * w2 + w2 := Nat.succ_mul (h / 2) w2
          have := innerV_miss uyvy stride (2 * w2) h w2
            (iterUp (uyvyRow uyvy stride (2 * w2)) h st) (ur * w2 + j)
          rw [hw2] at this
          exact this (Or.inr (by omega))
      rw [hmiss, ih st ur j hj]
      by_cases hc1 : 2 * ur + 1 < h
      · rw [if_pos hc1, if_pos (by omega : 2 * ur + 1 < h + 1)]
      · by_cases hc2 : 2 * ur < h
        · exact absurd hc2 (by omega)
        · rw [if_neg hc1, if_neg hc2,
              if_neg (by omega : ¬ 2 * ur + 1 < h + 1),
              if_neg (by omega : ¬ 2 * ur < h + 1)]

theorem constUYVY_even (k m : Nat) : constUYVY k (2 * m) = 128 := by
  unfold constUYVY
  rw [if_neg (by omega)]

theorem constUYVY_odd (k m : Nat) : constUYVY k (2 * m + 1) = k := by
  unfold constUYVY
  rw [if_pos (by omega)]

/-! ## Claims -/

/-- C1: in the per-source worker loop, every `capture_video` call returning
`Video` is followed by exactly one `free_video` call on every path (rate-cap
drop, null data pointer, encode error, encode success), and non-`Video`
capture results are never followed by a `free_video` call; consequently over
any sequence of cycles the number of `free_video` calls equals the number of
`Video` returns. -/
theorem C1_free_video_discipline :
    (∀ (minIv elapsed : Nat) (ft : FrameType) (dataNull : Bool)
        (encodeRes : Except EncodeError (List Nat)),
      (captureDispatch minIv elapsed ft dataNull encodeRes).free_video_calls
        = if ft.isVideo then 1 else 0) ∧
    (∀ (minIv : Nat) (steps : List WorkerCycle),
      traceFrees minIv steps = traceVideos steps) := by
  have hstep : ∀ (minIv elapsed : Nat) (ft : FrameType) (dataNull : Bool)
      (encodeRes : Except EncodeError (List Nat)),
      (captureDispatch minIv elapsed ft dataNull encodeRes).free_video_calls
        = if ft.isVideo then 1 else 0 := by
    intro minIv elapsed ft dataNull encodeRes
    cases ft <;>
      simp [captureDispatch, FrameType.isVideo, noEffects, videoDispatch_free_one]
  refine ⟨hstep, ?_⟩
  intro minIv steps
  induction steps with
  | nil => rfl
  | cons s rest ih =>
    simp [traceFrees, traceVideos, hstep, ih]

/-- C2: for every `Video` frame, `frames_in` is incremented unconditionally;
`min_frame_interval_ms` is `1000 / max_fps` when `max_fps > 0` and 0
otherwise; when the elapsed time since `last_send` is strictly below that
interval the frame is counted as dropped, freed, and the cycle neither
encodes nor publishes nor breaks; and `last_send` is updated exactly on a
successful encode (cap passed, non-null data, `Ok` from `encode_frame`). -/
theorem C2_rate_cap (max_fps elapsed : Nat) (dataNull : Bool)
    (encodeRes : Except EncodeError (List Nat)) :
    min_frame_interval_ms max_fps
        = (if 0 < max_fps then 1000 / max_fps else 0) ∧
    (videoDispatch (min_frame_interval_ms max_fps) elapsed dataNull
        encodeRes).frames_in_inc = 1 ∧
    (elapsed < min_frame_interval_ms max_fps →
      videoDispatch (min_frame_interval_ms max_fps) elapsed dataNull encodeRes
        = { noEffects with
            frames_in_inc := 1
            dropped_inc := 1
            free_video_calls := 1 }) ∧
    ((videoDispatch (min_frame_interval_ms max_fps) elapsed dataNull
        encodeRes).last_send_updated = true ↔
      (¬ elapsed < min_frame_interval_ms max_fps ∧ dataNull = false ∧
        ∃ out, encodeRes = .ok out)) := by
  refine ⟨rfl, ?_, ?_, ?_⟩
  · unfold videoDispatch
    split <;> rfl
  · intro hlt
    unfold videoDispatch
    rw [if_pos hlt]
  · unfold videoDispatch
    split
    · rename_i hlt
      simp [noEffects, hlt]
    · rename_i hge
      cases dataNull
      · cases encodeRes <;> simp [noEffects, hge]
      · simp [noEffects, hge]

theorem C2_rate_cap_witness :
    videoDispatch (min_frame_interval_ms 10) 50 false (Except.ok [])
        = { noEffects with
            frames_in_inc := 1
            dropped_inc := 1
            free_video_calls := 1 } :=
  (C2_rate_cap 10 50 false (Except.ok [])).2.2.1 (by decide)

/-- C4: `video_data` derives the byte length of the borrowed slice from
`(fourcc, w, h, stride)` exactly as the specification's §4.1 repair-and-table
rule states (`video_data_len_spec` is that rule transcribed from the spec);
it returns the slice only when `p_data` is non-null. -/
theorem C4_length_derivation :
    ∀ (fourcc : FourCCVideoType) (w h stride : Nat),
      video_data_len fourcc w h stride = video_data_len_spec fourcc w h stride ∧
      video_data false fourcc w h stride
        = Option.some (video_data_len fourcc w h stride) ∧
      video_data true fourcc w h stride = Option.none := by
  intro fourcc w h stride
  refine ⟨?_, rfl, rfl⟩
  cases fourcc <;> rfl

/-- C5 counterexample: the worker's own zero-stride repair
(receiver.rs lines 146-149) maps I420 to `w*4`, not to the `w*2` the claim
(and §4.1's `video_data` rule, `video_data_stride`) states: at `w = 10` the
worker derives 40 where the claim says 20. -/
theorem C5_counterexample :
    worker_stride FourCCVideoType.I420 10 0 = 40 ∧
    worker_stride FourCCVideoType.I420 10 0 ≠ 10 * 2 ∧
    video_data_stride FourCCVideoType.I420 10 0 = 10 * 2 := by
  refine ⟨rfl, ?_, rfl⟩
  decide

/-- C5 (amended): in the worker's own stride derivation for a `Video` frame
with zero `line_stride_in_bytes`, the stride passed to the encoder is `w*2`
for UYVY and UYVA and `w*4` for every other FourCC — the 32-bit RGB/BGR
family, but also I420, NV12, YV12 and Unknown, diverging from §4.1's
else-`w*2` rule. -/
theorem C5_worker_stride_amended : ∀ (w code : Nat),
    worker_stride .UYVY w 0 = w * 2 ∧
    worker_stride .UYVA w 0 = w * 2 ∧
    worker_stride .BGRA w 0 = w * 4 ∧
    worker_stride .BGRX w 0 = w * 4 ∧
    worker_stride .RGBA w 0 = w * 4 ∧
    worker_stride .RGBX w 0 = w * 4 ∧
    worker_stride .I420 w 0 = w * 4 ∧
    worker_stride .NV12 w 0 = w * 4 ∧
    worker_stride .YV12 w 0 = w * 4 ∧
    worker_stride (.Unknown code) w 0 = w * 4 := by
  intro w code
  exact ⟨rfl, rfl, rfl, rfl, rfl, rfl, rfl, rfl, rfl, rfl⟩

/-- C6: `encode_frame` returns the "unsupported FourCC" error exactly when
the FourCC is not one of UYVY, BGRA, BGRX, RGBA, RGBX; in particular UYVA,
I420, NV12, YV12 and Unknown all produce that error, and the supported set is
exactly those five. -/
theorem C6_unsupported_fourcc :
    ∀ (fourcc : FourCCVideoType) (w h stride : Nat) (q : Int)
      (b : EncodeBuffers) (cy cb cr : Except String (List Nat)) (code : Nat),
    (isUnsupportedErr (encode_frame w h stride fourcc q b cy cb cr).2 = true ↔
      supportedFourCC fourcc = false) ∧
    (encode_frame w h stride .UYVA q b cy cb cr).2
      = .error (.unsupportedFourCC .UYVA) ∧
    (encode_frame w h stride .I420 q b cy cb cr).2
      = .error (.unsupportedFourCC .I420) ∧
    (encode_frame w h stride .NV12 q b cy cb cr).2
      = .error (.unsupportedFourCC .NV12) ∧
    (encode_frame w h stride .YV12 q b cy cb cr).2
      = .error (.unsupportedFourCC .YV12) ∧
    (encode_frame w h stride (.Unknown code) q b cy cb cr).2
      = .error (.unsupportedFourCC (.Unknown code)) ∧
    (supportedFourCC fourcc = true ↔
      fourcc = .UYVY ∨ fourcc = .BGRA ∨ fourcc = .BGRX ∨
      fourcc = .RGBA ∨ fourcc = .RGBX) := by
  intro fourcc w h stride q b cy cb cr code
  refine ⟨?_, rfl, rfl, rfl, rfl, rfl, ?_⟩
  · cases fourcc <;>
      simp [encode_frame, supportedFourCC, isUnsupportedErr_wrapCompress] <;>
        rfl
  · cases fourcc <;> simp [supportedFourCC]

theorem C6_unsupported_fourcc_witness :
    isUnsupportedErr
      (encode_frame 4 2 8 FourCCVideoType.UYVA 75 EncodeBuffers.new
        (Except.ok []) (Except.ok []) (Except.ok [])).2 = true :=
  (C6_unsupported_fourcc FourCCVideoType.UYVA 4 2 8 75 EncodeBuffers.new
    (Except.ok []) (Except.ok []) (Except.ok []) 0).1.mpr (by decide)

/-- C7: after any sequence of `ensure_capacity` calls (from the initial
`EncodeBuffers::new()` state), the scratch sizes are those required by the
last `(w, h)` argument — Y has `w*h` bytes, U and V each `(w/2)*(h/2)`, the
packed buffer `w*h + (w/2)*(h/2)*2` — and a further call with the same
`(w, h)` performs no resize and leaves the state unchanged. -/
theorem C7_ensure_capacity_sizes :
    ∀ (calls : List (Nat × Nat)) (w h : Nat),
      (runEnsures (calls ++ [(w, h)])).y_plane = w * h ∧
      (runEnsures (calls ++ [(w, h)])).u_plane = (w / 2) * (h / 2) ∧
      (runEnsures (calls ++ [(w, h)])).v_plane = (w / 2) * (h / 2) ∧
      (runEnsures (calls ++ [(w, h)])).yuv_buf
        = w * h + (w / 2) * (h / 2) * 2 ∧
      ensure_capacity (runEnsures (calls ++ [(w, h)])) w h
        = (runEnsures (calls ++ [(w, h)]), false) := by
  intro calls w h
  have hsplit : runEnsures (calls ++ [(w, h)])
      = (ensure_capacity (runEnsures calls) w h).1 := by
    unfold runEnsures
    rw [List.foldl_append]
    rfl
  have hlast := ensure_capacity_last (runEnsures calls) w h
  have hsizes := ensure_capacity_sizesOK (runEnsures calls) w h
    (runEnsures_sizesOK calls)
  rw [hsplit]
  obtain ⟨hw, hh⟩ := hlast
  obtain ⟨h1, h2, h3, h4⟩ := hsizes
  rw [hw, hh] at h1 h2 h3 h4
  refine ⟨h1, h2, h3, h4, ?_⟩
  unfold ensure_capacity
  rw [if_neg]
  push_neg
  exact ⟨hw.symm, hh.symm⟩

/-- C8: `snapshot_and_reset(interval_secs)` swaps every counter to zero
except `clients` (which is only loaded), and the returned snapshot satisfies
`fps_in = frames_in / interval_secs`, `fps_out = frames_out / interval_secs`,
`kb_per_sec = (bytes_out / 1024) / interval_secs`, and
`avg_encode_ms = (encode_time_us / encode_count) / 1000` when
`encode_count > 0`, else 0.  (The `f64` arithmetic of the source is modelled
exactly over ℚ.) -/
theorem C8_snapshot_and_reset : ∀ (s : SourceStats) (interval_secs : ℚ),
    (snapshot_and_reset s interval_secs).1.frames_in = 0 ∧
    (snapshot_and_reset s interval_secs).1.frames_out = 0 ∧
    (snapshot_and_reset s interval_secs).1.encode_time_us = 0 ∧
    (snapshot_and_reset s interval_secs).1.encode_count = 0 ∧
    (snapshot_and_reset s interval_secs).1.bytes_out = 0 ∧
    (snapshot_and_reset s interval_secs).1.dropped = 0 ∧
    (snapshot_and_reset s interval_secs).1.clients = s.clients ∧
    (snapshot_and_reset s interval_secs).2.clients = s.clients ∧
    (snapshot_and_reset s interval_secs).2.fps_in
      = (s.frames_in : ℚ) / interval_secs ∧
    (snapshot_and_reset s interval_secs).2.fps_out
      = (s.frames_out : ℚ) / interval_secs ∧
    (snapshot_and_reset s interval_secs).2.kb_per_sec
      = ((s.bytes_out : ℚ) / 1024) / interval_secs ∧
    (snapshot_and_reset s interval_secs).2.avg_encode_ms
      = (if 0 < s.encode_count
          then ((s.encode_time_us : ℚ) / (s.encode_count : ℚ)) / 1000
          else 0) ∧
    (snapshot_and_reset s interval_secs).2.dropped = s.dropped := by
  intro s interval_secs
  exact ⟨rfl, rfl, rfl, rfl, rfl, rfl, rfl, rfl, rfl, rfl, rfl, rfl, rfl⟩

/-- C9: the subscriber adapter closes with 4404 "source not found" and never
subscribes when the source is absent from the discovery snapshot or
`get_or_create` fails; after subscribing, `Lagged(n)` continues the loop
without closing, `Closed` closes with 4410 "source lost" and ends the loop;
and on every exit after subscribing, `clients` is decremented (one
`unsubscribe` call) and `maybe_remove` is called exactly once. -/
theorem C9_ws_error_dispatch :
    ∀ (getOk : Bool) (events rest : List RecvEvent) (n : Nat),
    handle_ws false getOk events
      = { closes := [(4404, "source not found")], subscribed := false,
          unsubscribe_calls := 0, maybe_remove_calls := 0 } ∧
    handle_ws true false events
      = { closes := [(4404, "source not found")], subscribed := false,
          unsubscribe_calls := 0, maybe_remove_calls := 0 } ∧
    wsLoop (.lagged n :: rest) = wsLoop rest ∧
    wsLoop (.closed :: rest) = .exited [(4410, "source lost")] ∧
    (handle_ws true true events).unsubscribe_calls
      = (if (wsLoop events).isExited then 1 else 0) ∧
    (handle_ws true true events).maybe_remove_calls
      = (if (wsLoop events).isExited then 1 else 0) ∧
    (handle_ws true true events).subscribed = true := by
  intro getOk events rest n
  refine ⟨rfl, rfl, rfl, rfl, ?_, ?_, ?_⟩ <;>
    cases hw : wsLoop events <;>
      simp [handle_ws, hw, LoopOutcome.isExited]

/-- C3: for a UYVY input with even width `w = 2*w2` and even height
`h = 2*h2`, `uyvy_to_yuv420_planar` takes `Y[r,c]` from packed positions
`4*(c/2)+1` / `4*(c/2)+3` of row `r` (honoring the provided stride); the
final chroma at `(ur, j)` is the even row's value averaged with the odd
row's as `(prev + new) / 2` rounded down — per row, even rows write chroma
directly and odd rows average with the previously written value; and for
the synthesized frame whose luma bytes all equal `k` and chroma bytes all
equal 128 (`constUYVY`, packed stride `2*w`), the Y plane is `k` everywhere
and the U and V planes are 128 everywhere. -/
theorem C3_uyvy_conversion :
    ∀ (w2 h2 k : Nat) (st : YUVPlanes) (uyvy : Nat → Nat) (stride : Nat),
      (∀ r c, r < 2 * h2 → c < 2 * w2 →
        (uyvy_to_yuv420_planar uyvy stride (2 * w2) (2 * h2) st).y
            (r * (2 * w2) + c)
          = uyvy (r * stride + (4 * (c / 2)
              + (if c % 2 = 0 then 1 else 3)))) ∧
      (∀ ur j, ur < h2 → j < w2 →
        (uyvy_to_yuv420_planar uyvy stride (2 * w2) (2 * h2) st).u
            (ur * w2 + j)
          = (uyvy (2 * ur * stride + 4 * j)
              + uyvy ((2 * ur + 1) * stride + 4 * j)) / 2 ∧
        (uyvy_to_yuv420_planar uyvy stride (2 * w2) (2 * h2) st).v
            (ur * w2 + j)
          = (uyvy (2 * ur * stride + (4 * j + 2))
              + uyvy ((2 * ur + 1) * stride + (4 * j + 2))) / 2) ∧
      (∀ row j, j < w2 →
        (uyvyRow uyvy stride (2 * w2) row st).u (row / 2 * w2 + j)
          = (if row % 2 = 0 then uyvy (row * stride + 4 * j)
             else (st.u (row / 2 * w2 + j)
                    + uyvy (row * stride + 4 * j)) / 2)) ∧
      (∀ idx, idx < 2 * w2 * (2 * h2) →
        (uyvy_to_yuv420_planar (constUYVY k) (2 * (2 * w2)) (2 * w2) (2 * h2)
            st).y idx = k) ∧
      (∀ q, q < w2 * h2 →
        (uyvy_to_yuv420_planar (constUYVY k) (2 * (2 * w2)) (2 * w2) (2 * h2)
            st).u q = 128 ∧
        (uyvy_to_yuv420_planar (constUYVY k) (2 * (2 * w2)) (2 * w2) (2 * h2)
            st).v q = 128) := by
  intro w2 h2 k st uyvy stride
  refine ⟨?_, ?_, ?_, ?_, ?_⟩
  · -- luma source positions
    intro r c hr hc
    simp only [uyvy_to_yuv420_planar]
    rw [outerY uyvy stride w2 (2 * h2) st r c hr hc]
    have harg : 2 * c + 1 = 4 * (c / 2) + (if c % 2 = 0 then 1 else 3) := by
      by_cases hpar : c % 2 = 0
      · rw [if_pos hpar]; omega
      · rw [if_neg hpar]; omega
    rw [harg]
  · -- final chroma = vertical pairwise average
    intro ur j hur hj
    simp only [uyvy_to_yuv420_planar]
    have h4 : 2 * j * 2 = 4 * j := by omega
    constructor
    · rw [outerU uyvy stride w2 (2 * h2) st ur j hj,
          if_pos (by omega : 2 * ur + 1 < 2 * h2), h4]
    · rw [outerV uyvy stride w2 (2 * h2) st ur j hj,
          if_pos (by omega : 2 * ur + 1 < 2 * h2)]
      rw [show 2 * j * 2 + 2 = 4 * j + 2 by omega]
  · -- per-row chroma behavior
    intro row j hj
    have hw2 : 2 * w2 / 2 = w2 := by omega
    have hh := innerU_hit uyvy stride (2 * w2) row w2 st j hj
    rw [hw2] at hh
    rw [uyvyRow_even, hh]
    rw [show 2 * j * 2 = 4 * j by omega]
  · -- constant frame: luma plane
    intro idx hidx
    rcases Nat.eq_zero_or_pos w2 with h0 | hpos
    · subst h0; omega
    · have hposw : 0 < 2 * w2 := by omega
      have hc : idx % (2 * w2) < 2 * w2 := Nat.mod_lt _ hposw
      have hr : idx / (2 * w2) < 2 * h2 := by
        rw [Nat.div_lt_iff_lt_mul hposw]
        have := Nat.mul_comm (2 * w2) (2 * h2)
        omega
      have hsum : idx / (2 * w2) * (2 * w2) + idx % (2 * w2) = idx := by
        rw [Nat.mul_comm]
        exact Nat.div_add_mod idx (2 * w2)
      have hO := outerY (constUYVY k) (2 * (2 * w2)) w2 (2 * h2) st
        (idx / (2 * w2)) (idx % (2 * w2)) hr hc
      rw [hsum] at hO
      simp only [uyvy_to_yuv420_planar]
      rw [hO,
          show idx / (2 * w2) * (2 * (2 * w2)) + (2 * (idx % (2 * w2)) + 1)
            = 2 * (idx / (2 * w2) * (2 * w2) + idx % (2 * w2)) + 1 by ring,
          constUYVY_odd]
  · -- constant frame: chroma planes
    intro q hq
    rcases Nat.eq_zero_or_pos w2 with h0 | hpos
    · subst h0; omega
    · have hj : q % w2 < w2 := Nat.mod_lt _ hpos
      have hur : q / w2 < h2 := by
        rw [Nat.div_lt_iff_lt_mul hpos]
        have := Nat.mul_comm w2 h2
        omega
      have hsum : q / w2 * w2 + q % w2 = q := by
        rw [Nat.mul_comm]
        exact Nat.div_add_mod q w2
      constructor
      · have hU := outerU (constUYVY k) (2 * (2 * w2)) w2 (2 * h2) st
          (q / w2) (q % w2) hj
        rw [hsum, if_pos (by omega : 2 * (q / w2) + 1 < 2 * h2)] at hU
        rw [show 2 * (q / w2) * (2 * (2 * w2)) + 2 * (q % w2) * 2
              = 2 * (q / w2 * (2 * (2 * w2)) + q % w2 * 2) by ring,
            constUYVY_even,
            show (2 * (q / w2) + 1) * (2 * (2 * w2)) + 2 * (q % w2) * 2
              = 2 * ((2 * (q / w2) + 1) * (2 * w2) + q % w2 * 2) by ring,
            constUYVY_even] at hU
        simp only [uyvy_to_yuv420_planar]
        rw [hU]
      · have hV := outerV (constUYVY k) (2 * (2 * w2)) w2 (2 * h2) st
          (q / w2) (q % w2) hj
        rw [hsum, if_pos (by omega : 2 * (q / w2) + 1 < 2 * h2)] at hV
        rw [show 2 * (q / w2) * (2 * (2 * w2)) + (2 * (q % w2) * 2 + 2)
              = 2 * (q / w2 * (2 * (2 * w2)) + (q % w2 * 2 + 1)) by ring,
            constUYVY_even,
            show (2 * (q / w2) + 1) * (2 * (2 * w2)) + (2 * (q % w2) * 2 + 2)
              = 2 * ((2 * (q / w2) + 1) * (2 * w2) + (q % w2 * 2 + 1)) by ring,
            constUYVY_even] at hV
        simp only [uyvy_to_yuv420_planar]
        rw [hV]

theorem C3_uyvy_conversion_witness :
    (uyvy_to_yuv420_planar (constUYVY 7) (2 * (2 * 1)) (2 * 1) (2 * 1)
        ⟨fun _ => 0, fun _ => 0, fun _ => 0⟩).y 0 = 7 ∧
    (uyvy_to_yuv420_planar (constUYVY 7) (2 * (2 * 1)) (2 * 1) (2 * 1)
        ⟨fun _ => 0, fun _ => 0, fun _ => 0⟩).u 0 = 128 ∧
    (uyvy_to_yuv420_planar (constUYVY 7) (2 * (2 * 1)) (2 * 1) (2 * 1)
        ⟨fun _ => 0, fun _ => 0, fun _ => 0⟩).v 0 = 128 := by
  have hthm := C3_uyvy_conversion 1 1 7 ⟨fun _ => 0, fun _ => 0, fun _ => 0⟩
    (constUYVY 7) (2 * (2 * 1))
  exact ⟨hthm.2.2.2.1 0 (by decide),
    (hthm.2.2.2.2 0 (by decide)).1,
    (hthm.2.2.2.2 0 (by decide)).2⟩

/-- C10: with even width `2*w2`, even height `2*h2`, input length at least
`stride*(h-1) + 2*w`, `stride ≥ 2*w`, and planes of the sizes
`ensure_capacity` allocates (`w*h` for Y, `(w/2)*(h/2)` for U and V), every
slice index `uyvy_to_yuv420_planar` uses is in bounds, so the function
cannot panic; the even-dimension precondition is required: with odd width 3
(height 2) or odd height 3 (width 2) and exactly the plane sizes
`ensure_capacity` allocates, some index exceeds its plane. -/
theorem C10_index_safety :
    (∀ (w2 h2 stride srclen ylen ulen vlen : Nat),
      2 * (2 * w2) ≤ stride →
      stride * (2 * h2 - 1) + 2 * (2 * w2) ≤ srclen →
      2 * w2 * (2 * h2) ≤ ylen →
      w2 * h2 ≤ ulen → w2 * h2 ≤ vlen →
      uyvyIndexesInBounds (2 * w2) (2 * h2) stride srclen ylen ulen vlen) ∧
    ¬ uyvyIndexesInBounds 3 2 6 100 (3 * 2) (3 / 2 * (2 / 2)) (3 / 2 * (2 / 2)) ∧
    ¬ uyvyIndexesInBounds 2 3 4 100 (2 * 3) (2 / 2 * (3 / 2)) (2 / 2 * (3 / 2)) := by
  refine ⟨?_, by decide, by decide⟩
  intro w2 h2 stride srclen ylen ulen vlen hstride hsrc hy hu hv
  intro row hrow
  have hr1 : row ≤ 2 * h2 - 1 := by omega
  have hrs : row * stride ≤ (2 * h2 - 1) * stride :=
    Nat.mul_le_mul_right _ hr1
  have hcomm : (2 * h2 - 1) * stride = stride * (2 * h2 - 1) :=
    Nat.mul_comm _ _
  refine ⟨by omega, ?_⟩
  intro j hj
  have hjw : j < w2 := by omega
  refine ⟨?_, ?_, ?_, ?_⟩
  · have ha : (row + 1) * (2 * w2) ≤ 2 * h2 * (2 * w2) :=
      Nat.mul_le_mul_right _ (by omega)
    have hb : (row + 1) * (2 * w2) = row * (2 * w2) + 2 * w2 :=
      Nat.succ_mul _ _
    have hc : 2 * h2 * (2 * w2) = 2 * w2 * (2 * h2) :=
      Nat.mul_comm (2 * h2) (2 * w2)
    omega
  · omega
  · have hdiv : 2 * w2 / 2 = w2 := by omega
    rw [hdiv]
    have ha : (row / 2 + 1) * w2 ≤ h2 * w2 :=
      Nat.mul_le_mul_right _ (by omega)
    have hb : (row / 2 + 1) * w2 = row / 2 * w2 + w2 := Nat.succ_mul _ _
    have hc : h2 * w2 = w2 * h2 := Nat.mul_comm h2 w2
    omega
  · have hdiv : 2 * w2 / 2 = w2 := by omega
    rw [hdiv]
    have ha : (row / 2 + 1) * w2 ≤ h2 * w2 :=
      Nat.mul_le_mul_right _ (by omega)
    have hb : (row / 2 + 1) * w2 = row / 2 * w2 + w2 := Nat.succ_mul _ _
    have hc : h2 * w2 = w2 * h2 := Nat.mul_comm h2 w2
    omega

theorem C10_index_safety_witness :
    uyvyIndexesInBounds (2 * 2) (2 * 1) 8 16 8 2 2 :=
  C10_index_safety.1 2 1 8 16 8 2 2 (by decide) (by decide) (by decide)
    (by decide) (by decide)

end StreamBridge
